import Mathlib

/-!
# Keyset pagination helpers: a shallow embedding

This file embeds the pagination/cursor helpers of
`src/server/utils/pagination-helpers.ts` (the `getPagination`,
`getPagingData`, `parseSortString`, `parseCursor` and `getCursor`
functions) as executable Lean definitions and proves the specified
properties about them.

Modelling conventions:
* JavaScript numbers that appear here are row ids / cursor values, modelled
  as `Int` (the code only ever compares and multiplies integers; `bigint`
  cursors take the same code path as `number` cursors and are merged into
  the same constructor).
* A JavaScript value that may be `undefined`, a number, or `NaN` is
  modelled by the inductive type `JsVal`.
* String splitting (`String.prototype.split` with a one-character
  separator), trimming (`String.prototype.trim`) and numeric conversion
  (`Number(...)`, on the integer fragment actually exercised by cursors)
  are modelled explicitly at the character-list level so that their
  behaviour is fully transparent: `jsSplit`, `jsTrim`, `toNumber`.
* JavaScript records (`Record<string, number>`) are modelled as total
  functions `String → JsVal` returning `JsVal.undef` for absent keys;
  property writes are `updMap` (later writes win, as in JS).
* Indexing `xs[i]` out of range yields `undefined` in JS; we model it with
  `List.getD i JsVal.undef` wherever the source indexes a possibly short
  array, and with an explicit default elsewhere.
-/

/-- A JavaScript value as it occurs in the cursor-decoding code: either
`undefined`, `NaN`, or an (integer) number. -/
inductive JsVal where
  | undef : JsVal
  | nan : JsVal
  | num : Int → JsVal
deriving DecidableEq, Repr

/-- Model of `String.prototype.trim` at the character-list level: strip
whitespace from both ends. -/
def jsTrim (cs : List Char) : List Char :=
  ((cs.dropWhile Char.isWhitespace).reverse.dropWhile Char.isWhitespace).reverse

/-- Model of `String.prototype.split` with a single-character separator.
Agrees with JS: splitting the empty string gives `[""]`, a trailing
separator gives a trailing empty chunk, etc. -/
def jsSplit (sep : Char) : List Char → List (List Char)
  | [] => [[]]
  | c :: cs =>
    let r := jsSplit sep cs
    if c = sep then [] :: r
    else
      match r with
      | h :: t => (c :: h) :: t
      | [] => [[c]]

/-- Numeric value of a decimal digit character. -/
def digitVal (c : Char) : Nat := c.toNat - 48

/-- Parse a non-empty all-digit character list as a natural number
(most-significant digit first); `none` otherwise. -/
def parseNatDigits (cs : List Char) : Option Nat :=
  if cs ≠ [] ∧ cs.all Char.isDigit then
    some (Nat.ofDigits 10 ((cs.map digitVal).reverse))
  else none

/-- Model of JavaScript `Number(...)` on the fragment exercised by cursor
segments: the input is trimmed; the empty string converts to `0`; an
optional sign followed by decimal digits converts to the corresponding
integer; anything else (in particular any non-numeric segment) is `NaN`.
(Float, hexadecimal and exponent literal forms never occur in cursors and
are out of scope of the model.) -/
def toNumber (cs : List Char) : JsVal :=
  match jsTrim cs with
  | [] => JsVal.num 0
  | c :: rest =>
    if c = '-' then
      match parseNatDigits rest with
      | some n => JsVal.num (-(n : Int))
      | none => JsVal.nan
    else if c = '+' then
      match parseNatDigits rest with
      | some n => JsVal.num (n : Int)
      | none => JsVal.nan
    else
      match parseNatDigits (c :: rest) with
      | some n => JsVal.num (n : Int)
      | none => JsVal.nan

/-- Decimal rendering of a natural number (as JavaScript stringification of
a number would produce it). -/
def natToCh (n : Nat) : List Char :=
  if n = 0 then ['0'] else ((Nat.digits 10 n).map Nat.digitChar).reverse

/-- Decimal rendering of an integer. -/
def intToCh (n : Int) : List Char :=
  if n < 0 then '-' :: natToCh n.natAbs else natToCh n.toNat

/-- A parsed sort field, as produced by `parseSortString` in the source:
`field` is the destructured first token of the clause, which is
`undefined` (here `none`) when the clause has no tokens, and `order` is
the upper-cased second token, defaulting to `"ASC"`. -/
structure SortField where
  field : Option String
  order : String
deriving DecidableEq, Repr

/-- One clause of the sort string:
`const [field, order = 'ASC'] = part.trim().split(' ').filter(Boolean)`
followed by `order.toUpperCase()`. -/
def parseClause (part : List Char) : SortField :=
  let parts := (jsSplit ' ' (jsTrim part)).filter (fun x => x ≠ [])
  { field := parts.head?.map String.mk
    order := String.mk (((parts.getD 1 "ASC".data)).map Char.toUpper) }

/-- `parseSortString` from the source: split the sort string on `','` and
parse each clause.  The source never throws here: an empty clause just
yields `field = undefined` (`none`). -/
def parseSortString (sortString : String) : List SortField :=
  (jsSplit ',' sortString.data).map parseClause

/-- A cursor argument: JavaScript `number`/`bigint` (merged: both take the
`typeof cursor === 'number' || typeof cursor === 'bigint'` path) or
`string`. -/
inductive Cursor where
  | num : Int → Cursor
  | str : String → Cursor
deriving DecidableEq, Repr

/-- JavaScript truthiness of the `cursor` argument: `0`, `0n` and `""` are
falsy, everything else of its type is truthy. -/
def truthyCursor (c : Cursor) : Bool :=
  match c with
  | Cursor.num n => n != 0
  | Cursor.str s => s != ""

/-- JavaScript property-key coercion: using `undefined` as a record key
accesses the key `"undefined"`. -/
def propKey (f : Option String) : String := f.getD "undefined"

/-- The empty record: every key reads as `undefined`. -/
def emptyRec : String → JsVal := fun _ => JsVal.undef

/-- A single property write `m[k] = v`; later writes shadow earlier ones. -/
def updMap (m : String → JsVal) (k : String) (v : JsVal) : String → JsVal :=
  fun x => if x = k then v else m x

/-- Default `SortField` used for in-range `List.getD` indexing. -/
def dSF : SortField := { field := none, order := "ASC" }

/-- The `for (let i = 0; i < fields.length; i++) result[fields[i].field] =
values[i]` loop of `parseCursor`, as a fold over the loop indices.
Out-of-range `values[i]` is `undefined`. -/
def parseCursorVals (fields : List SortField) (values : List JsVal) : String → JsVal :=
  (List.range fields.length).foldl
    (fun m i => updMap m (propKey (fields.getD i dSF).field) (values.getD i JsVal.undef))
    emptyRec

/-- `parseCursor` from the source.  A numeric (or bigint) cursor is mapped
to the first field only; a string cursor is split on `':'`, each segment
converted with `Number`, and assigned to the fields positionally.  The
source indexes `fields[0]` on the numeric path and so throws on an empty
field list; that situation is unreachable from `getCursor` (see
`parseSortString_ne_nil`), and the model returns the empty record there. -/
def parseCursor (fields : List SortField) (cursor : Cursor) : String → JsVal :=
  match cursor with
  | Cursor.num n =>
    match fields with
    | [] => emptyRec
    | f :: _ => updMap emptyRec (propKey f.field) (JsVal.num n)
  | Cursor.str s => parseCursorVals fields ((jsSplit ':' s.data).map toNumber)

/-- One comparison `field <op> value` of the generated WHERE fragment.
The operator is kept as the literal string the source uses
(`'='`, `'<'`, `'>'`); the compared value is the parameterised cursor
value `cursors[field]`. -/
structure Atom where
  field : Option String
  op : String
  value : JsVal
deriving DecidableEq, Repr

/-- The nested loop of `getCursor` that builds the keyset predicate:
disjunct `i` (outer list element) conjoins, for `j ≤ i`, the comparison of
`sortFields[j].field` with the cursor value, using `'='` for `j < i` and
the strict comparison (`'<'` for DESC, `'>'` otherwise) at `j = i`. -/
def buildKeysetPredicate (sortFields : List SortField) (cursors : String → JsVal) :
    List (List Atom) :=
  (List.range sortFields.length).map (fun i =>
    (List.range (i + 1)).map (fun j =>
      let sf := sortFields.getD j dSF
      { field := sf.field
        op := if j < i then "=" else if sf.order = "DESC" then "<" else ">"
        value := cursors (propKey sf.field) }))

/-- The separator `", ':', "` used by the source to join field names inside
`CONCAT(...)` (written with explicit quote characters). -/
def concatSep : String :=
  String.mk [',', ' ', Char.ofNat 39, ':', Char.ofNat 39, ',', ' ']

/-- `getCursor` from the source: parse the sort string; when a truthy
cursor is supplied, decode it and build the keyset predicate; always
return the sort-key expression `prop` (the single field name, coercing a
missing name like JS array `join` does for the CONCAT form).  `prop` is
`none` exactly when there is a single sort field whose name is
`undefined`. -/
def getCursor (sortString : String) (cursor : Option Cursor) :
    Option (List (List Atom)) × Option String :=
  let sortFields := parseSortString sortString
  let whereC : Option (List (List Atom)) :=
    match cursor with
    | some c =>
      if truthyCursor c then
        some (buildKeysetPredicate sortFields (parseCursor sortFields c))
      else none
    | none => none
  let sortProps := sortFields.map (fun x => x.field)
  let prop : Option String :=
    if sortFields.length = 1 then (sortFields.getD 0 dSF).field
    else some ("CONCAT(" ++ String.intercalate concatSep (sortProps.map (fun f => f.getD "")) ++ ")")
  (whereC, prop)

/-- `getPagination` from the source:
`take = limit > 0 ? limit : undefined`,
`skip = page && take ? (page - 1) * take : undefined`. -/
def getPagination (limit : Int) (page : Option Int) : Option Int × Option Int :=
  let take : Option Int := if limit > 0 then some limit else none
  let skip : Option Int :=
    match page, take with
    | some p, some t => if p ≠ 0 ∧ t ≠ 0 then some ((p - 1) * t) else none
    | _, _ => none
  (take, skip)

/-- Input of `getPagingData`: `{ count?, items }`. -/
structure PagingInput (T : Type) where
  count : Option Int
  items : List T

/-- Output of `getPagingData`. -/
structure PagingData (T : Type) where
  items : List T
  totalItems : Int
  currentPage : Int
  pageSize : Int
  totalPages : Int

/-- `getPagingData` from the source:
`totalItems = count ?? 0`, `currentPage = page ?? 1`,
`pageSize = limit ?? totalItems`, and
`totalPages = pageSize && totalItems ? Math.ceil(totalItems / pageSize) : 1`
(JS division is exact real division here, modelled over `ℚ`). -/
def getPagingData {T : Type} (data : PagingInput T) (limit page : Option Int) :
    PagingData T :=
  let totalItems := data.count.getD 0
  let currentPage := page.getD 1
  let pageSize := limit.getD totalItems
  let totalPages : Int :=
    if pageSize ≠ 0 ∧ totalItems ≠ 0 then ⌈(totalItems : ℚ) / (pageSize : ℚ)⌉ else 1
  { items := data.items
    totalItems := totalItems
    currentPage := currentPage
    pageSize := pageSize
    totalPages := totalPages }

/-- Semantics of one atom against a row (a valuation of column names):
an equality/strict comparison between the row's column and the cursor
value.  A comparison whose parameter is `undefined`/`NaN`, or whose column
name is `undefined`, is never satisfied (SQL three-valued logic: comparison
with NULL/NaN is not true); such atoms do not occur in the verified
claims. -/
def evalAtom (row : String → Int) (a : Atom) : Bool :=
  match a.field, a.value with
  | some nm, JsVal.num v =>
    if a.op = "=" then decide (row nm = v)
    else if a.op = "<" then decide (row nm < v)
    else if a.op = ">" then decide (row nm > v)
    else false
  | _, _ => false

/-- Semantics of the generated predicate: OR of the disjuncts, AND within
each disjunct. -/
def evalPred (row : String → Int) (p : List (List Atom)) : Bool :=
  p.any (fun conj => conj.all (evalAtom row))

/-- Index of the last occurrence of `k` in `names`, if any. -/
def lastIdxAux (k : String) : List String → Option Nat
  | [] => none
  | n :: ns =>
    match lastIdxAux k ns with
    | some j => some (j + 1)
    | none => if n = k then some 0 else none

/-- Index of the last sort field whose (coerced) name is `k`. -/
def lastIdx (fields : List SortField) (k : String) : Option Nat :=
  lastIdxAux k (fields.map (fun f => propKey f.field))

/-- Modelled from the spec: the value of the sort-key expression on a row
whose sort-field values are given by `asg`.  For a single sort field the
expression is the field itself, so the cursor is that raw numeric value;
for several fields it is `CONCAT(f1, ':', f2, ...)`, i.e. the decimal
renderings of the values joined with `':'`.  (The expression itself is
built by `getCursor`; its evaluation on a row happens in the database,
outside this repository.) -/
def encodeCursor (sfs : List (String × String)) (asg : String → Int) : Cursor :=
  if sfs.length = 1 then Cursor.num (asg (sfs.getD 0 ("", "ASC")).1)
  else Cursor.str (String.mk (List.intercalate [':'] (sfs.map (fun p => intToCh (asg p.1)))))

/-- Interpret a (name, order) pair as the `SortField` it denotes: a sort
specification in the sense of the spec always has a present field name. -/
def mkSF (p : String × String) : SortField :=
  { field := some p.1, order := p.2 }

theorem getD_map_of_lt {α β : Type} (l : List α) (f : α → β) (i : Nat) (d : β) (d' : α)
    (h : i < l.length) : (l.map f).getD i d = f (l.getD i d') := by
  rw [List.getD_eq_getElem?_getD, List.getD_eq_getElem?_getD, List.getElem?_map,
    List.getElem?_eq_getElem h]
  simp

theorem foldl_congr_mem {α β : Type} (l : List α) (f g : β → α → β) (b : β)
    (h : ∀ a ∈ l, ∀ x, f x a = g x a) : l.foldl f b = l.foldl g b := by
  induction l generalizing b with
  | nil => rfl
  | cons a l ih =>
    simp only [List.foldl_cons]
    rw [h a (by simp)]
    exact ih _ (fun a ha x => h a (by simp [ha]) x)

theorem jsSplit_ne_nil (sep : Char) (cs : List Char) : jsSplit sep cs ≠ [] := by
  induction cs with
  | nil => simp [jsSplit]
  | cons c cs ih =>
    simp only [jsSplit]
    split
    · simp
    · cases h : jsSplit sep cs with
      | nil => exact absurd h ih
      | cons a t => simp [h]

theorem parseSortString_ne_nil (s : String) : parseSortString s ≠ [] := by
  simp only [parseSortString, ne_eq, List.map_eq_nil_iff]
  exact jsSplit_ne_nil ',' s.data

theorem lastIdxAux_snoc (k n : String) (ns : List String) :
    lastIdxAux k (ns ++ [n]) = if n = k then some ns.length else lastIdxAux k ns := by
  induction ns with
  | nil => simp [lastIdxAux]
  | cons m ns ih =>
    have h1 : lastIdxAux k (m :: (ns ++ [n])) =
        match lastIdxAux k (ns ++ [n]) with
        | some j => some (j + 1)
        | none => if m = k then some 0 else none := rfl
    rw [List.cons_append, h1, ih]
    by_cases hn : n = k
    · simp [hn]
    · simp only [if_neg hn]
      rfl

theorem lastIdxAux_eq_none_iff (k : String) (ns : List String) :
    lastIdxAux k ns = none ↔ k ∉ ns := by
  induction ns with
  | nil => simp [lastIdxAux]
  | cons n ns ih =>
    simp only [lastIdxAux, List.mem_cons]
    cases h : lastIdxAux k ns with
    | some j => simp [← ih, h]
    | none =>
      have hk : k ∉ ns := (ih).mp h
      by_cases hn : n = k <;> simp [hn, hk, Ne.symm]

theorem lastIdxAux_spec (k : String) (ns : List String) (j : Nat)
    (h : lastIdxAux k ns = some j) :
    j < ns.length ∧ ns.getD j "" = k ∧
      ∀ j', j < j' → j' < ns.length → ns.getD j' "" ≠ k := by
  induction ns generalizing j with
  | nil => simp [lastIdxAux] at h
  | cons n ns ih =>
    simp only [lastIdxAux] at h
    cases h0 : lastIdxAux k ns with
    | some j0 =>
      rw [h0] at h
      obtain rfl : j = j0 + 1 := by simpa using h.symm
      obtain ⟨h1, h2, h3⟩ := ih j0 h0
      refine ⟨by simpa using h1, by simpa using h2, ?_⟩
      intro j' hj' hlen
      cases j' with
      | zero => omega
      | succ m =>
        simp only [List.getD_cons_succ]
        exact h3 m (by omega) (by simpa using hlen)
    | none =>
      rw [h0] at h
      have hk : k ∉ ns := (lastIdxAux_eq_none_iff k ns).mp h0
      by_cases hn : n = k
      · simp only [hn, if_pos rfl] at h
        obtain rfl : j = 0 := by simpa using h.symm
        refine ⟨by simp, by simpa using hn, ?_⟩
        intro j' hj' hlen
        cases j' with
        | zero => omega
        | succ m =>
          simp only [List.getD_cons_succ]
          intro hEq
          exact hk (hEq ▸ List.getD_eq_getElem?_getD ns m "" ▸ (by
            rw [List.getElem?_eq_getElem (by simpa using hlen)]
            simp only [Option.getD_some]
            exact List.getElem_mem _))
      · simp [hn] at h

theorem lastIdxAux_eq_some (k : String) (ns : List String) (i : Nat)
    (hi : i < ns.length) (hk : ns.getD i "" = k)
    (hlast : ∀ j, i < j → j < ns.length → ns.getD j "" ≠ k) :
    lastIdxAux k ns = some i := by
  induction ns generalizing i with
  | nil => simp at hi
  | cons n ns ih =>
    simp only [lastIdxAux]
    cases i with
    | zero =>
      have hnone : lastIdxAux k ns = none := by
        rw [lastIdxAux_eq_none_iff]
        intro hmem
        obtain ⟨m, hm, hget⟩ := List.mem_iff_getElem.mp hmem
        refine hlast (m + 1) (by omega) (by simpa using hm) ?_
        rw [List.getD_cons_succ, List.getD_eq_getElem?_getD, List.getElem?_eq_getElem hm]
        simpa using hget
      rw [hnone]
      simp only [List.getD_cons_zero] at hk
      simp [hk]
    | succ m =>
      have : lastIdxAux k ns = some m := by
        refine ih m (by simpa using hi) (by simpa using hk) ?_
        intro j hj hlen
        have := hlast (j + 1) (by omega) (by simpa using hlen)
        simpa using this
      rw [this]

theorem parseCursorVals_snoc (fs : List SortField) (f : SortField) (values : List JsVal) :
    parseCursorVals (fs ++ [f]) values =
      updMap (parseCursorVals fs values) (propKey f.field) (values.getD fs.length JsVal.undef) := by
  unfold parseCursorVals
  have hlen : (fs ++ [f]).length = fs.length + 1 := by simp
  rw [hlen, List.range_succ, List.foldl_append]
  simp only [List.foldl_cons, List.foldl_nil]
  have hf : (fs ++ [f]).getD fs.length dSF = f := by
    rw [List.getD_eq_getElem?_getD, List.getElem?_concat_length]
    rfl
  rw [hf]
  have hcongr :
      List.foldl
        (fun m i => updMap m (propKey ((fs ++ [f]).getD i dSF).field) (values.getD i JsVal.undef))
        emptyRec (List.range fs.length) =
      List.foldl
        (fun m i => updMap m (propKey (fs.getD i dSF).field) (values.getD i JsVal.undef))
        emptyRec (List.range fs.length) :=
    foldl_congr_mem _ _ _ _ (fun i hi m => by
      rw [List.getD_append fs [f] dSF i (List.mem_range.mp hi)])
  rw [hcongr]

theorem lastIdx_snoc (fs : List SortField) (f : SortField) (k : String) :
    lastIdx (fs ++ [f]) k = if propKey f.field = k then some fs.length else lastIdx fs k := by
  unfold lastIdx
  rw [List.map_append]
  simpa using lastIdxAux_snoc k (propKey f.field) (fs.map fun f => propKey f.field)

theorem parseCursorVals_lastIdx (fields : List SortField) (values : List JsVal) (k : String) :
    parseCursorVals fields values k =
      (match lastIdx fields k with
       | some j => values.getD j JsVal.undef
       | none => JsVal.undef) := by
  induction fields using List.reverseRecOn with
  | nil => rfl
  | append_singleton fs f ih =>
    rw [parseCursorVals_snoc, lastIdx_snoc]
    unfold updMap
    by_cases hk : k = propKey f.field
    · simp [hk]
    · rw [if_neg hk, if_neg (fun h => hk h.symm), ih]

theorem name_getD_mem (fields : List SortField) (i : Nat) (hi : i < fields.length) :
    propKey ((fields.getD i dSF).field) ∈ fields.map (fun f => propKey f.field) := by
  rw [← getD_map_of_lt fields (fun f => propKey f.field) i "" dSF hi,
    List.getD_eq_getElem?_getD, List.getElem?_eq_getElem (by simpa using hi)]
  simp only [Option.getD_some]
  exact List.getElem_mem _

theorem parseCursorVals_lookup (fields : List SortField) (values : List JsVal) (i : Nat)
    (hi : i < fields.length)
    (hlast : ∀ j, i < j → j < fields.length →
      propKey ((fields.getD j dSF).field) ≠ propKey ((fields.getD i dSF).field)) :
    parseCursorVals fields values (propKey ((fields.getD i dSF).field)) =
      values.getD i JsVal.undef := by
  rw [parseCursorVals_lastIdx]
  have hsome : lastIdx fields (propKey ((fields.getD i dSF).field)) = some i := by
    apply lastIdxAux_eq_some
    · simpa using hi
    · exact getD_map_of_lt fields (fun f => propKey f.field) i "" dSF hi
    · intro j hj hlen
      rw [getD_map_of_lt fields (fun f => propKey f.field) j "" dSF (by simpa using hlen)]
      exact hlast j hj (by simpa using hlen)
  rw [hsome]

theorem parseCursorVals_not_mem (fields : List SortField) (values : List JsVal) (k : String)
    (hk : ∀ f ∈ fields, propKey f.field ≠ k) :
    parseCursorVals fields values k = JsVal.undef := by
  rw [parseCursorVals_lastIdx]
  have hnone : lastIdx fields k = none := by
    rw [lastIdx, lastIdxAux_eq_none_iff]
    simp only [List.mem_map, not_exists]
    rintro f ⟨hf, hfk⟩
    exact hk f hf hfk
  rw [hnone]

theorem parseCursorVals_mem_const (fields : List SortField) (values : List JsVal) (k : String)
    (v : JsVal) (hmem : ∃ i, i < fields.length ∧ propKey ((fields.getD i dSF).field) = k)
    (hall : ∀ i, i < fields.length → propKey ((fields.getD i dSF).field) = k →
      values.getD i JsVal.undef = v) :
    parseCursorVals fields values k = v := by
  rw [parseCursorVals_lastIdx]
  obtain ⟨i, hi, hki⟩ := hmem
  cases h : lastIdx fields k with
  | none =>
    exfalso
    have := (lastIdxAux_eq_none_iff k _).mp h
    exact this (hki ▸ name_getD_mem fields i hi)
  | some j =>
    obtain ⟨hj, hkj, _⟩ := lastIdxAux_spec k _ j h
    have hjlen : j < fields.length := by simpa using hj
    refine hall j hjlen ?_
    rw [← hkj, getD_map_of_lt fields (fun f => propKey f.field) j "" dSF hjlen]

theorem lastIdx_ge (fields : List SortField) (i : Nat) (hi : i < fields.length) :
    ∃ j, lastIdx fields (propKey ((fields.getD i dSF).field)) = some j ∧
      i ≤ j ∧ j < fields.length := by
  cases h : lastIdx fields (propKey ((fields.getD i dSF).field)) with
  | none =>
    exfalso
    exact (lastIdxAux_eq_none_iff _ _).mp h (name_getD_mem fields i hi)
  | some j =>
    obtain ⟨hj, hkj, hlast⟩ := lastIdxAux_spec _ _ j h
    refine ⟨j, rfl, ?_, by simpa using hj⟩
    by_contra hlt
    push_neg at hlt
    exact hlast i hlt (by simpa using hi)
      (getD_map_of_lt fields (fun f => propKey f.field) i "" dSF hi)

theorem parseCursorVals_take (fields : List SortField) (values : List JsVal) (n : Nat)
    (hn : fields.length ≤ n) :
    parseCursorVals fields (values.take n) = parseCursorVals fields values := by
  funext k
  rw [parseCursorVals_lastIdx, parseCursorVals_lastIdx]
  cases h : lastIdx fields k with
  | none => rfl
  | some j =>
    obtain ⟨hj, _, _⟩ := lastIdxAux_spec k _ j h
    have hjn : j < n := by
      simp only [List.length_map] at hj
      omega
    show (List.take n values).getD j JsVal.undef = values.getD j JsVal.undef
    rw [List.getD_eq_getElem?_getD, List.getD_eq_getElem?_getD, List.getElem?_take,
      if_pos hjn]

theorem digitChar_props (d : Nat) (h : d < 10) :
    (Nat.digitChar d).isDigit = true ∧ digitVal (Nat.digitChar d) = d ∧
      (Nat.digitChar d).isWhitespace = false ∧ Nat.digitChar d ≠ '-' ∧
      Nat.digitChar d ≠ '+' ∧ Nat.digitChar d ≠ ':' := by
  interval_cases d <;> exact (by decide)

theorem natToCh_props (n : Nat) :
    ∀ c ∈ natToCh n, c.isDigit = true ∧ digitVal c = c.toNat - 48 ∧
      c.isWhitespace = false ∧ c ≠ '-' ∧ c ≠ '+' ∧ c ≠ ':' := by
  intro c hc
  unfold natToCh at hc
  split at hc
  · simp only [List.mem_singleton] at hc
    subst hc
    exact (by decide)
  · simp only [List.mem_reverse, List.mem_map] at hc
    obtain ⟨d, hd, rfl⟩ := hc
    have hd10 : d < 10 := Nat.digits_lt_base (by norm_num) hd
    obtain ⟨h1, h2, h3, h4, h5, h6⟩ := digitChar_props d hd10
    exact ⟨h1, rfl, h3, h4, h5, h6⟩

theorem natToCh_ne_nil (n : Nat) : natToCh n ≠ [] := by
  unfold natToCh
  split
  · simp
  · simpa using Nat.digits_ne_nil_iff_ne_zero.mpr (by assumption)

theorem dropWhile_all_false {α : Type} (p : α → Bool) (cs : List α)
    (h : ∀ c ∈ cs, p c = false) : cs.dropWhile p = cs := by
  cases cs with
  | nil => rfl
  | cons a l =>
    rw [List.dropWhile_cons, h a (by simp)]
    simp

theorem jsTrim_eq_self (cs : List Char) (h : ∀ c ∈ cs, c.isWhitespace = false) :
    jsTrim cs = cs := by
  unfold jsTrim
  rw [dropWhile_all_false _ _ h,
    dropWhile_all_false _ _ (fun c hc => h c (List.mem_reverse.mp hc)), List.reverse_reverse]

theorem parseNatDigits_natToCh (n : Nat) : parseNatDigits (natToCh n) = some n := by
  unfold parseNatDigits
  rw [if_pos ⟨natToCh_ne_nil n, by
    rw [List.all_eq_true]
    exact fun c hc => (natToCh_props n c hc).1⟩]
  congr 1
  unfold natToCh
  split
  · subst n
    decide
  · rw [List.map_reverse, List.reverse_reverse, List.map_map]
    have hmap : (Nat.digits 10 n).map (digitVal ∘ Nat.digitChar) = Nat.digits 10 n := by
      rw [show Nat.digits 10 n = (Nat.digits 10 n).map id by simp]
      rw [List.map_map]
      exact List.map_congr_left (fun d hd =>
        (digitChar_props d (Nat.digits_lt_base (by norm_num) (by simpa using hd))).2.1)
    rw [hmap, Nat.ofDigits_digits]

theorem toNumber_natToCh (n : Nat) : toNumber (natToCh n) = JsVal.num n := by
  unfold toNumber
  rw [jsTrim_eq_self _ (fun c hc => (natToCh_props n c hc).2.2.1)]
  cases hcs : natToCh n with
  | nil => exact absurd hcs (natToCh_ne_nil n)
  | cons c rest =>
    have hc := natToCh_props n c (hcs ▸ List.mem_cons_self c rest)
    simp only [if_neg hc.2.2.2.1, if_neg hc.2.2.2.2.1]
    rw [← hcs, parseNatDigits_natToCh]

theorem toNumber_intToCh (n : Int) : toNumber (intToCh n) = JsVal.num n := by
  unfold intToCh
  split
  · rename_i hneg
    have h1 : jsTrim ('-' :: natToCh n.natAbs) = '-' :: natToCh n.natAbs :=
      jsTrim_eq_self _ (by
        intro c hc
        rcases List.mem_cons.mp hc with rfl | hc'
        · decide
        · exact (natToCh_props n.natAbs c hc').2.2.1)
    unfold toNumber
    rw [h1]
    show (match parseNatDigits (natToCh n.natAbs) with
      | some m => JsVal.num (-(m : Int))
      | none => JsVal.nan) = JsVal.num n
    rw [parseNatDigits_natToCh]
    show JsVal.num (-(n.natAbs : Int)) = JsVal.num n
    congr 1
    omega
  · rename_i hpos
    rw [toNumber_natToCh]
    congr 1
    omega

theorem intToCh_no_colon (n : Int) : ':' ∉ intToCh n := by
  unfold intToCh
  split
  · intro hc
    rcases List.mem_cons.mp hc with hc' | hc'
    · exact absurd hc'.symm (by decide)
    · exact (natToCh_props n.natAbs ':' hc').2.2.2.2.2 rfl
  · intro hc
    exact (natToCh_props n.toNat ':' hc).2.2.2.2.2 rfl

theorem jsSplit_no_sep (sep : Char) (p : List Char) (h : sep ∉ p) : jsSplit sep p = [p] := by
  induction p with
  | nil => rfl
  | cons c cs ih =>
    simp only [jsSplit]
    rw [if_neg (fun hc => h (by simp [hc])),
      ih (fun hm => h (List.mem_cons_of_mem c hm))]

theorem jsSplit_append_sep (sep : Char) (p ys : List Char) (h : sep ∉ p) :
    jsSplit sep (p ++ sep :: ys) = p :: jsSplit sep ys := by
  induction p with
  | nil => simp [jsSplit]
  | cons c cs ih =>
    simp only [List.cons_append, jsSplit]
    rw [if_neg (fun hc => h (by simp [hc]))]
    simp only [List.append_eq]
    rw [ih (fun hm => h (List.mem_cons_of_mem c hm))]

theorem jsSplit_intercalate (sep : Char) (parts : List (List Char))
    (hne : parts ≠ []) (h : ∀ p ∈ parts, sep ∉ p) :
    jsSplit sep (List.intercalate [sep] parts) = parts := by
  induction parts with
  | nil => contradiction
  | cons p ps ih =>
    cases ps with
    | nil =>
      have hone : List.intercalate [sep] [p] = p := by simp [List.intercalate]
      rw [hone]
      exact jsSplit_no_sep sep p (h p (by simp))
    | cons q qs =>
      have hstep : List.intercalate [sep] (p :: q :: qs) =
          p ++ sep :: List.intercalate [sep] (q :: qs) := by
        simp [List.intercalate, List.intersperse_cons_cons]
      rw [hstep, jsSplit_append_sep sep p _ (h p (by simp)),
        ih (by simp) (fun r hr => h r (List.mem_cons_of_mem p hr))]

theorem evalAtom_eq_op (row : String → Int) (nm : String) (v : Int) :
    evalAtom row { field := some nm, op := "=", value := JsVal.num v } =
      decide (row nm = v) := rfl

theorem evalAtom_lt_op (row : String → Int) (nm : String) (v : Int) :
    evalAtom row { field := some nm, op := "<", value := JsVal.num v } =
      decide (row nm < v) := rfl

theorem evalAtom_gt_op (row : String → Int) (nm : String) (v : Int) :
    evalAtom row { field := some nm, op := ">", value := JsVal.num v } =
      decide (row nm > v) := rfl

theorem evalPred_buildKeyset (sfs : List (String × String)) (cv row : String → Int) :
    evalPred row (buildKeysetPredicate (sfs.map mkSF) (fun k => JsVal.num (cv k))) = true ↔
      ∃ i, i < sfs.length ∧
        (∀ j, j < i →
          row (sfs.getD j ("", "ASC")).1 = cv (sfs.getD j ("", "ASC")).1) ∧
        (if (sfs.getD i ("", "ASC")).2 = "DESC"
         then row (sfs.getD i ("", "ASC")).1 < cv (sfs.getD i ("", "ASC")).1
         else row (sfs.getD i ("", "ASC")).1 > cv (sfs.getD i ("", "ASC")).1) := by
  unfold evalPred buildKeysetPredicate
  rw [List.any_eq_true]
  constructor
  · rintro ⟨conj, hmem, hall⟩
    simp only [List.mem_map, List.mem_range, List.length_map] at hmem
    obtain ⟨i, hi, rfl⟩ := hmem
    rw [List.all_eq_true] at hall
    refine ⟨i, hi, ?_, ?_⟩
    · intro j hj
      have hatom := hall _ (List.mem_map_of_mem _ (List.mem_range.mpr (by omega : j < i + 1)))
      rw [getD_map_of_lt sfs mkSF j dSF ("", "ASC") (by omega)] at hatom
      simp only [mkSF, if_pos hj, propKey, Option.getD_some] at hatom
      rw [evalAtom_eq_op] at hatom
      simpa using hatom
    · have hatom := hall _ (List.mem_map_of_mem _ (List.mem_range.mpr (Nat.lt_succ_self i)))
      rw [getD_map_of_lt sfs mkSF i dSF ("", "ASC") hi] at hatom
      simp only [mkSF, if_neg (lt_irrefl i), propKey, Option.getD_some] at hatom
      by_cases hd : (sfs.getD i ("", "ASC")).2 = "DESC"
      · rw [if_pos hd] at hatom ⊢
        rw [evalAtom_lt_op] at hatom
        simpa using hatom
      · rw [if_neg hd] at hatom ⊢
        rw [evalAtom_gt_op] at hatom
        simpa using hatom
  · rintro ⟨i, hi, heq, hstrict⟩
    refine ⟨_, List.mem_map_of_mem _ (List.mem_range.mpr (by simpa using hi)), ?_⟩
    rw [List.all_eq_true]
    intro a ha
    simp only [List.mem_map, List.mem_range] at ha
    obtain ⟨j, hj, rfl⟩ := ha
    rw [getD_map_of_lt sfs mkSF j dSF ("", "ASC") (by omega)]
    by_cases hji : j < i
    · simp only [mkSF, if_pos hji, propKey, Option.getD_some]
      rw [evalAtom_eq_op]
      simpa using heq j hji
    · have hji' : j = i := by omega
      subst hji'
      simp only [mkSF, if_neg hji, propKey, Option.getD_some]
      by_cases hd : (sfs.getD j ("", "ASC")).2 = "DESC"
      · rw [if_pos hd] at hstrict ⊢
        rw [evalAtom_lt_op]
        simpa using hstrict
      · rw [if_neg hd] at hstrict ⊢
        rw [evalAtom_gt_op]
        simpa using hstrict

/-- C1: for every non-empty sort specification (named fields with orders)
and every cursor mapping supplying a numeric value for each field, the
predicate built by `getCursor`'s nested loop (`buildKeysetPredicate`)
holds of a row exactly when for some rank `i` the row agrees with the
cursor on all fields before `i` and compares strictly (`>` for ascending,
`<` for descending) at `i`; in particular for the sort `[a ASC, b DESC]`
with cursor `(a = 5, b = 10)` it is equivalent to
`a > 5 OR (a = 5 AND b < 10)`. -/
theorem claim_C1 :
    (∀ (sfs : List (String × String)) (cv row : String → Int), sfs ≠ [] →
      (evalPred row (buildKeysetPredicate (sfs.map mkSF) (fun k => JsVal.num (cv k))) = true ↔
        ∃ i, i < sfs.length ∧
          (∀ j, j < i →
            row (sfs.getD j ("", "ASC")).1 = cv (sfs.getD j ("", "ASC")).1) ∧
          (if (sfs.getD i ("", "ASC")).2 = "DESC"
           then row (sfs.getD i ("", "ASC")).1 < cv (sfs.getD i ("", "ASC")).1
           else row (sfs.getD i ("", "ASC")).1 > cv (sfs.getD i ("", "ASC")).1))) ∧
    (∀ row : String → Int,
      (evalPred row (buildKeysetPredicate [mkSF ("a", "ASC"), mkSF ("b", "DESC")]
          (fun k => JsVal.num (if k = "a" then 5 else 10))) = true ↔
        (row "a" > 5 ∨ (row "a" = 5 ∧ row "b" < 10)))) := by
  constructor
  · intro sfs cv row _
    exact evalPred_buildKeyset sfs cv row
  · intro row
    have hbk : buildKeysetPredicate [mkSF ("a", "ASC"), mkSF ("b", "DESC")]
        (fun k => JsVal.num (if k = "a" then 5 else 10)) =
        [[{ field := some "a", op := ">", value := JsVal.num 5 }],
         [{ field := some "a", op := "=", value := JsVal.num 5 },
          { field := some "b", op := "<", value := JsVal.num 10 }]] := by decide
    rw [hbk]
    simp only [evalPred, List.any_cons, List.any_nil, List.all_cons, List.all_nil,
      evalAtom_gt_op, evalAtom_eq_op, evalAtom_lt_op, Bool.and_true, Bool.or_false,
      Bool.or_eq_true, Bool.and_eq_true, decide_eq_true_eq]

/-- Witness for C1: the general equivalence applied to the one-field
ascending sort `[a ASC]` with cursor value `5` and the constant row `7`. -/
theorem claim_C1_witness :
    (([("a", "ASC")] : List (String × String)) ≠ []) ∧
    (evalPred (fun _ => 7) (buildKeysetPredicate ([("a", "ASC")].map mkSF)
        (fun _ => JsVal.num 5)) = true ↔
      ∃ i, i < 1 ∧ (∀ j, j < i → (7 : Int) = 5) ∧
        (if (([("a", "ASC")] : List (String × String)).getD i ("", "ASC")).2 = "DESC"
         then (7 : Int) < 5 else (7 : Int) > 5)) :=
  ⟨by decide, claim_C1.1 [("a", "ASC")] (fun _ => 5) (fun _ => 7) (by decide)⟩

/-- C6: with no cursor supplied, `getCursor` returns an absent predicate
but still returns the sort-key expression: the field name itself for a
single-field sort, and `CONCAT(...)` of the field names joined with
`', ':', '` for a multi-field sort. -/
theorem claim_C6 : ∀ s : String,
    (getCursor s none).1 = none ∧
    (∀ f, parseSortString s = [f] → (getCursor s none).2 = f.field) ∧
    ((parseSortString s).length ≠ 1 →
      (getCursor s none).2 = some ("CONCAT(" ++
        String.intercalate concatSep ((parseSortString s).map (fun x => x.field.getD "")) ++
        ")")) := by
  intro s
  refine ⟨rfl, ?_, ?_⟩
  · intro f hf
    simp [getCursor, hf]
  · intro hlen
    simp [getCursor, hlen]
    rfl

/-- Witness for C6: the single-field sort `"a"` yields prop `a`; the
two-field sort `"a, b DESC"` yields the CONCAT form. -/
theorem claim_C6_witness :
    (getCursor "a" none).1 = none ∧
    (getCursor "a" none).2 = ({ field := some "a", order := "ASC" } : SortField).field ∧
    (getCursor "a, b DESC" none).2 = some ("CONCAT(" ++
      String.intercalate concatSep
        ((parseSortString "a, b DESC").map (fun x => x.field.getD "")) ++ ")") :=
  ⟨(claim_C6 "a").1, (claim_C6 "a").2.1 _ (by decide), (claim_C6 "a, b DESC").2.2 (by decide)⟩

/-- C10: the cursor is tested for truthiness, not presence: the numeric
cursor `0` and the empty-string cursor behave exactly like an absent
cursor, and in all three cases the returned predicate is absent. -/
theorem claim_C10 : ∀ s : String,
    getCursor s (some (Cursor.num 0)) = getCursor s none ∧
    getCursor s (some (Cursor.str "")) = getCursor s none ∧
    (getCursor s none).1 = none := by
  intro s
  refine ⟨?_, ?_, rfl⟩ <;> simp [getCursor, truthyCursor]

/-- C7: `getPagingData` computes `totalPages = ceil(totalItems / pageSize)`
when both the limit and the item count are supplied and non-zero, and `1`
in every other case (missing or zero limit, missing or zero count). -/
theorem claim_C7 :
    (∀ (T : Type) (items : List T) (l c : Int) (page : Option Int), l ≠ 0 → c ≠ 0 →
      (getPagingData ⟨some c, items⟩ (some l) page).totalPages = ⌈(c : ℚ) / (l : ℚ)⌉) ∧
    (∀ (T : Type) (data : PagingInput T) (limit page : Option Int),
      (limit = none ∨ limit = some 0 ∨ data.count = none ∨ data.count = some 0) →
      (getPagingData data limit page).totalPages = 1) := by
  constructor
  · intro T items l c page hl hc
    simp [getPagingData, hl, hc]
  · intro T data limit page h
    rcases h with h | h | h | h
    · subst h
      by_cases hti : data.count.getD 0 = 0
      · simp [getPagingData, hti]
      · simp only [getPagingData, Option.getD_none]
        rw [if_pos ⟨hti, hti⟩, div_self (by exact_mod_cast hti)]
        simp
    · subst h
      simp [getPagingData]
    · rw [show data = ⟨none, data.items⟩ by cases data; simp_all]
      simp [getPagingData]
    · rw [show data = ⟨some 0, data.items⟩ by cases data; simp_all]
      simp [getPagingData]

/-- Witness for C7: `getPagingData({count: 95, items}, limit = 20, page = 2)`
yields `totalPages = ceil(95/20) = 5`. -/
theorem claim_C7_witness :
    ((20 : Int) ≠ 0) ∧ ((95 : Int) ≠ 0) ∧
    (getPagingData ⟨some 95, ([] : List Unit)⟩ (some 20) (some 2)).totalPages = 5 := by
  refine ⟨by norm_num, by norm_num, ?_⟩
  rw [claim_C7.1 Unit [] 20 95 (some 2) (by norm_num) (by norm_num)]
  rw [Int.ceil_eq_iff]
  norm_num

/-- C8 counterexample: the claim says `skip` is undefined whenever `page`
is missing or non-positive, but for the non-positive page `-1` with
limit `20` the source computes `skip = (-1 - 1) * 20 = -40` (JavaScript
truthiness only excludes `0`). -/
theorem claim_C8_counterexample :
    getPagination 20 (some (-1)) = (some 20, some (-40)) ∧
    (some (-40) : Option Int) ≠ none := by
  constructor <;> decide

/-- C8 amended: `take = limit` when `limit` is positive and is undefined
otherwise; `skip = (page - 1) * limit` when `page` is present and non-zero
(not necessarily positive) and `limit` is positive; `skip` is undefined
when `page` is missing or zero or `limit` is not positive. -/
theorem claim_C8_amended : ∀ (limit : Int) (page : Option Int),
    (limit > 0 → (getPagination limit page).1 = some limit) ∧
    (limit ≤ 0 → (getPagination limit page).1 = none) ∧
    (∀ p, page = some p → p ≠ 0 → limit > 0 →
      (getPagination limit page).2 = some ((p - 1) * limit)) ∧
    ((page = none ∨ page = some 0 ∨ limit ≤ 0) → (getPagination limit page).2 = none) := by
  intro limit page
  refine ⟨?_, ?_, ?_, ?_⟩
  · intro hl
    simp [getPagination, hl]
  · intro hl
    simp [getPagination, not_lt.mpr hl]
  · intro p hp hpne hl
    subst hp
    simp [getPagination, hl, hpne, ne_of_gt hl]
  · intro h
    rcases h with h | h | h
    · subst h
      simp [getPagination]
    · subst h
      by_cases hl : limit > 0
      · simp [getPagination, hl]
      · simp [getPagination, hl]
    · simp [getPagination, not_lt.mpr h]

/-- Witness for C8 amended: `getPagination(20, 3) = {take: 20, skip: 40}`
and `getPagination(0, 3) = {take: undefined, skip: undefined}`. -/
theorem claim_C8_witness :
    (getPagination 20 (some 3)).1 = some 20 ∧ (getPagination 20 (some 3)).2 = some 40 ∧
    (getPagination 0 (some 3)).1 = none ∧ (getPagination 0 (some 3)).2 = none :=
  ⟨(claim_C8_amended 20 (some 3)).1 (by norm_num),
   by
    rw [(claim_C8_amended 20 (some 3)).2.2.1 3 rfl (by norm_num) (by norm_num)]
    norm_num,
   (claim_C8_amended 0 (some 3)).2.1 (by norm_num),
   (claim_C8_amended 0 (some 3)).2.2.2 (Or.inr (Or.inr (by norm_num)))⟩

/-- C2 counterexample: the sort-string parser does not fail on a clause
that is empty after trimming: parsing `","` (two empty clauses) returns a
two-element sort-field list (with `undefined` field names), not an
`InvalidSortSpec` error — the source has no failure path at all here. -/
theorem claim_C2_counterexample :
    parseSortString "," =
      [{ field := none, order := "ASC" }, { field := none, order := "ASC" }] := by
  decide

/-- C2 amended: a clause that is empty after trimming does not make the
parser fail; the parser is total and that clause contributes the
sort field `{field: undefined, order: ASC}` at its position. -/
theorem claim_C2_amended : ∀ (s : String) (i : Nat),
    i < (jsSplit ',' s.data).length →
    jsTrim ((jsSplit ',' s.data).getD i []) = [] →
    (parseSortString s).getD i dSF = { field := none, order := "ASC" } := by
  intro s i hi htrim
  unfold parseSortString
  rw [getD_map_of_lt _ parseClause i dSF [] hi]
  unfold parseClause
  rw [htrim]
  rfl

/-- Witness for C2 amended: position 0 of the sort string `","`. -/
theorem claim_C2_witness :
    0 < (jsSplit ',' ",".data).length ∧
    jsTrim ((jsSplit ',' ",".data).getD 0 []) = [] ∧
    (parseSortString ",").getD 0 dSF = { field := none, order := "ASC" } :=
  ⟨by decide, by decide, claim_C2_amended "," 0 (by decide) (by decide)⟩

/-- C3 counterexample: the cursor decoder does not fail on a non-numeric
segment: decoding `"x:10"` against fields `[a, b]` produces the mapping
`a = NaN, b = 10` — there is no `InvalidCursor` error path in the
source. -/
theorem claim_C3_counterexample :
    parseCursor [mkSF ("a", "ASC"), mkSF ("b", "ASC")] (Cursor.str "x:10") "a" = JsVal.nan ∧
    parseCursor [mkSF ("a", "ASC"), mkSF ("b", "ASC")] (Cursor.str "x:10") "b" =
      JsVal.num 10 := by
  constructor <;> decide

/-- C3 amended: a non-numeric segment does not make the decoder fail; the
decoder is total and (when the field's name does not recur later, writes
being last-wins) assigns `NaN` — the JavaScript `Number` of the segment —
to the field at that position. -/
theorem claim_C3_amended : ∀ (fields : List SortField) (s : String) (i : Nat),
    i < fields.length →
    (∀ j, i < j → j < fields.length →
      propKey ((fields.getD j dSF).field) ≠ propKey ((fields.getD i dSF).field)) →
    i < (jsSplit ':' s.data).length →
    toNumber ((jsSplit ':' s.data).getD i []) = JsVal.nan →
    parseCursor fields (Cursor.str s) (propKey ((fields.getD i dSF).field)) = JsVal.nan := by
  intro fields s i hi hlast hseg hnan
  show parseCursorVals fields ((jsSplit ':' s.data).map toNumber)
      (propKey ((fields.getD i dSF).field)) = JsVal.nan
  rw [parseCursorVals_lookup fields _ i hi hlast,
    getD_map_of_lt _ toNumber i JsVal.undef [] hseg]
  exact hnan

/-- Witness for C3 amended: the single-field sort with cursor `"x"`. -/
theorem claim_C3_witness :
    (0 < ([mkSF ("a", "ASC")] : List SortField).length) ∧
    (0 < (jsSplit ':' "x".data).length) ∧
    toNumber ((jsSplit ':' "x".data).getD 0 []) = JsVal.nan ∧
    parseCursor [mkSF ("a", "ASC")] (Cursor.str "x")
      (propKey (([mkSF ("a", "ASC")] : List SortField).getD 0 dSF).field) = JsVal.nan :=
  ⟨by decide, by decide, by decide,
   claim_C3_amended [mkSF ("a", "ASC")] "x" 0 (by decide)
     (by
       intro j h1 h2
       simp only [List.length_singleton] at h2
       omega)
     (by decide) (by decide)⟩

/-- C5 counterexample: with a duplicated field name `[a, a]` the claim's
positional mapping fails: decoding `"5:10"` must map segment 0 (value 5)
to field 0 (named `a`), but the record write for field 1 overwrites it
and the mapping has `a = 10 ≠ 5`. -/
theorem claim_C5_counterexample :
    (([mkSF ("a", "ASC"), mkSF ("a", "DESC")] : List SortField).getD 0 dSF).field =
      some "a" ∧
    parseCursor [mkSF ("a", "ASC"), mkSF ("a", "DESC")] (Cursor.str "5:10") "a" ≠
      JsVal.num 5 := by
  constructor <;> decide

/-- C5 amended: for every non-empty field list whose (coerced) field names
are pairwise distinct, a numeric cursor is mapped to the first field only
(all later fields read as undefined), and a string cursor is decoded
positionally: field `i` receives the JavaScript `Number` of segment `i`
(undefined when there is no such segment). -/
theorem claim_C5_amended : ∀ (fields : List SortField),
    fields ≠ [] →
    (∀ i, i < fields.length → ∀ j, j < fields.length → i ≠ j →
      propKey ((fields.getD i dSF).field) ≠ propKey ((fields.getD j dSF).field)) →
    (∀ n : Int,
      parseCursor fields (Cursor.num n) (propKey ((fields.getD 0 dSF).field)) =
        JsVal.num n ∧
      (∀ i, 0 < i → i < fields.length →
        parseCursor fields (Cursor.num n) (propKey ((fields.getD i dSF).field)) =
          JsVal.undef)) ∧
    (∀ (s : String) (i : Nat), i < fields.length →
      parseCursor fields (Cursor.str s) (propKey ((fields.getD i dSF).field)) =
        ((jsSplit ':' s.data).map toNumber).getD i JsVal.undef) := by
  intro fields hne hdist
  constructor
  · intro n
    cases fields with
    | nil => exact absurd rfl hne
    | cons f fs =>
      constructor
      · show updMap emptyRec (propKey f.field) (JsVal.num n)
            (propKey (((f :: fs).getD 0 dSF).field)) = JsVal.num n
        simp [updMap, List.getD_cons_zero]
      · intro i h0 hi
        show updMap emptyRec (propKey f.field) (JsVal.num n)
            (propKey (((f :: fs).getD i dSF).field)) = JsVal.undef
        unfold updMap
        rw [if_neg (by
          have := hdist i hi 0 (by omega) (by omega)
          simpa [List.getD_cons_zero] using this)]
        rfl
  · intro s i hi
    show parseCursorVals fields ((jsSplit ':' s.data).map toNumber)
        (propKey ((fields.getD i dSF).field)) =
      ((jsSplit ':' s.data).map toNumber).getD i JsVal.undef
    exact parseCursorVals_lookup fields _ i hi
      (fun j hj hjlen => hdist j hjlen i hi (by omega))

/-- Witness for C5 amended: decoding `"5:10"` against `[a, b]` yields
`{a: 5, b: 10}`, and decoding the numeric cursor `42` yields
`{a: 42, b: undefined}`. -/
theorem claim_C5_witness :
    parseCursor [mkSF ("a", "ASC"), mkSF ("b", "ASC")] (Cursor.num 42) "a" =
      JsVal.num 42 ∧
    parseCursor [mkSF ("a", "ASC"), mkSF ("b", "ASC")] (Cursor.num 42) "b" =
      JsVal.undef ∧
    parseCursor [mkSF ("a", "ASC"), mkSF ("b", "ASC")] (Cursor.str "5:10") "a" =
      JsVal.num 5 ∧
    parseCursor [mkSF ("a", "ASC"), mkSF ("b", "ASC")] (Cursor.str "5:10") "b" =
      JsVal.num 10 := by
  have h := claim_C5_amended [mkSF ("a", "ASC"), mkSF ("b", "ASC")] (by decide)
    (by
      intro i hi j hj hij
      have hi2 : i < 2 := by simpa using hi
      have hj2 : j < 2 := by simpa using hj
      interval_cases i <;> interval_cases j <;> first | omega | decide)
  exact ⟨(h.1 42).1, (h.1 42).2 1 (by decide) (by decide),
    (h.2 "5:10" 0 (by decide)).trans (by decide),
    (h.2 "5:10" 1 (by decide)).trans (by decide)⟩

/-- C9: a cursor/field-count mismatch does not raise an error: decoding a
string cursor only ever uses its first `fields.length` segments (extras
are silently dropped), and every field at a position with no segment
reads as undefined in the resulting mapping. -/
theorem claim_C9 : ∀ (fields : List SortField) (s : String),
    parseCursor fields (Cursor.str s) =
      parseCursorVals fields (((jsSplit ':' s.data).map toNumber).take fields.length) ∧
    (∀ i, (jsSplit ':' s.data).length ≤ i → i < fields.length →
      parseCursor fields (Cursor.str s) (propKey ((fields.getD i dSF).field)) =
        JsVal.undef) := by
  intro fields s
  constructor
  · exact (parseCursorVals_take fields _ fields.length (le_refl _)).symm
  · intro i hseg hi
    show parseCursorVals fields ((jsSplit ':' s.data).map toNumber)
        (propKey ((fields.getD i dSF).field)) = JsVal.undef
    obtain ⟨j, hj, hij, hjlen⟩ := lastIdx_ge fields i hi
    rw [parseCursorVals_lastIdx, hj]
    exact List.getD_eq_default _ _ (by
      rw [List.length_map]
      omega)

/-- Witness for C9: decoding the one-segment cursor `"5"` against the
two-field sort `[a, b]` leaves field `b` undefined. -/
theorem claim_C9_witness :
    ((jsSplit ':' "5".data).length ≤ 1) ∧
    (1 < ([mkSF ("a", "ASC"), mkSF ("b", "ASC")] : List SortField).length) ∧
    parseCursor [mkSF ("a", "ASC"), mkSF ("b", "ASC")] (Cursor.str "5")
      (propKey (([mkSF ("a", "ASC"), mkSF ("b", "ASC")] : List SortField).getD 1 dSF).field) =
      JsVal.undef :=
  ⟨by decide, by decide,
   (claim_C9 [mkSF ("a", "ASC"), mkSF ("b", "ASC")] "5").2 1 (by decide) (by decide)⟩

/-- C4: round-trip — encoding a row's sort-field values as the sort-key
expression (the raw value for a single field, the values joined with `':'`
in declared order for several) and decoding that cursor reproduces
exactly the original field-to-value mapping: every sort-field name reads
back its assigned value and every other key reads as undefined. -/
theorem claim_C4 : ∀ (sfs : List (String × String)) (asg : String → Int),
    sfs ≠ [] →
    ∀ k : String,
      parseCursor (sfs.map mkSF) (encodeCursor sfs asg) k =
        (if k ∈ sfs.map (fun p => p.1) then JsVal.num (asg k) else JsVal.undef) := by
  intro sfs asg hne k
  unfold encodeCursor
  by_cases hlen : sfs.length = 1
  · rw [if_pos hlen]
    obtain ⟨p, rfl⟩ : ∃ p, sfs = [p] := by
      cases sfs with
      | nil => exact absurd rfl hne
      | cons p ps =>
        cases ps with
        | nil => exact ⟨p, rfl⟩
        | cons q qs => simp at hlen
    show updMap emptyRec (propKey (mkSF p).field)
        (JsVal.num (asg ([p].getD 0 ("", "ASC")).1)) k = _
    unfold updMap
    simp only [mkSF, propKey, Option.getD_some, List.getD_cons_zero, List.map_cons,
      List.map_nil, List.mem_singleton]
    by_cases hk : k = p.1
    · rw [if_pos hk, if_pos hk, hk]
    · rw [if_neg hk, if_neg hk]
      rfl
  · rw [if_neg hlen]
    show parseCursorVals (sfs.map mkSF)
        ((jsSplit ':'
          (String.mk (List.intercalate [':'] (sfs.map fun p => intToCh (asg p.1)))).data).map
          toNumber) k = _
    have hdata : (String.mk (List.intercalate [':'] (sfs.map fun p => intToCh (asg p.1)))).data =
        List.intercalate [':'] (sfs.map fun p => intToCh (asg p.1)) := rfl
    rw [hdata, jsSplit_intercalate ':' _ (by simpa using hne) (by
      intro p hp
      simp only [List.mem_map] at hp
      obtain ⟨q, _, rfl⟩ := hp
      exact intToCh_no_colon (asg q.1))]
    rw [List.map_map]
    have hvals : sfs.map (toNumber ∘ fun p => intToCh (asg p.1)) =
        sfs.map (fun p => JsVal.num (asg p.1)) :=
      List.map_congr_left (fun p _ => toNumber_intToCh (asg p.1))
    rw [hvals]
    by_cases hk : k ∈ sfs.map (fun p => p.1)
    · rw [if_pos hk]
      apply parseCursorVals_mem_const
      · simp only [List.mem_map] at hk
        obtain ⟨p, hp, rfl⟩ := hk
        obtain ⟨idx, hidx, hgetp⟩ := List.mem_iff_getElem.mp hp
        refine ⟨idx, by simpa using hidx, ?_⟩
        rw [getD_map_of_lt sfs mkSF idx dSF ("", "ASC") hidx]
        simp only [mkSF, propKey, Option.getD_some]
        rw [List.getD_eq_getElem?_getD, List.getElem?_eq_getElem hidx]
        simp only [Option.getD_some]
        rw [hgetp]
      · intro i hi hkey
        have hi' : i < sfs.length := by simpa using hi
        rw [getD_map_of_lt sfs (fun p => JsVal.num (asg p.1)) i JsVal.undef ("", "ASC") hi']
        rw [getD_map_of_lt sfs mkSF i dSF ("", "ASC") hi'] at hkey
        simp only [mkSF, propKey, Option.getD_some] at hkey
        rw [hkey]
    · rw [if_neg hk]
      apply parseCursorVals_not_mem
      intro f hf
      simp only [List.mem_map] at hf
      obtain ⟨p, hp, rfl⟩ := hf
      simp only [mkSF, propKey, Option.getD_some]
      intro hkeq
      exact hk (List.mem_map.mpr ⟨p, hp, hkeq⟩)

/-- Witness for C4: the two-field sort `[a ASC, b DESC]` with row values
`a = 5, b = 10`, read back at key `a`. -/
theorem claim_C4_witness :
    (([("a", "ASC"), ("b", "DESC")] : List (String × String)) ≠ []) ∧
    parseCursor ([("a", "ASC"), ("b", "DESC")].map mkSF)
      (encodeCursor [("a", "ASC"), ("b", "DESC")] (fun k => if k = "a" then 5 else 10)) "a" =
      (if "a" ∈ [("a", "ASC"), ("b", "DESC")].map (fun p => p.1)
       then JsVal.num (if "a" = "a" then 5 else 10) else JsVal.undef) :=
  ⟨by decide, claim_C4 [("a", "ASC"), ("b", "DESC")] (fun k => if k = "a" then 5 else 10)
    (by decide) "a"⟩

/-- Sanity check: parsing `"createdAt DESC, id ASC"` yields the expected
two sort fields (spec §8, property 4). -/
theorem sanity_parseSortString : parseSortString "createdAt DESC, id ASC" =
    [{ field := some "createdAt", order := "DESC" },
     { field := some "id", order := "ASC" }] := by
  decide

/-- Sanity check: the modelled `Number(...)` on representative inputs. -/
theorem sanity_toNumber :
    toNumber "12".data = JsVal.num 12 ∧ toNumber "-12".data = JsVal.num (-12) ∧
    toNumber "x".data = JsVal.nan ∧ toNumber "".data = JsVal.num 0 := by
  refine ⟨by decide, by decide, by decide, by decide⟩

/-- Sanity check: the sort-key expression of a two-field sort. -/
theorem sanity_getCursor_prop :
    (getCursor "a, b DESC" none).2 =
      some ("CONCAT(" ++ String.intercalate concatSep ["a", "b"] ++ ")") := by
  decide
